import Mathlib

/-!
Verification development for the cerial serialization library
(`src/serial.ts`).  The data model and the two codec directions
(`serialize`, `Deserialize`) are embedded shallowly:

* schemas (`__serial__` maps) are ordered association lists of
  `(property, type, length?)` entries;
* JavaScript runtime values are modelled by `JSVal`: numbers are exact
  rationals plus `NaN` and signed infinities (every finite IEEE-754 double
  is a rational, so this domain contains all doubles; `-0` is identified
  with `0`), bigints are unbounded integers, strings are lists of UTF-16
  code units;
* buffers (`ArrayBuffer`/`Uint8Array` contents) are lists of byte values;
* all `DataView` accessors in the source omit the `littleEndian`
  argument, so per the ECMAScript specification they read and write
  big-endian (most significant byte first); the embedding hard-codes
  that byte order;
* fallible operations return `Except SerialError`; each `SerialError`
  constructor corresponds to one `throw` site of the source (or to a
  built-in `TypeError`/`RangeError` raised by `DataView`,
  `Uint8Array.prototype.set`, or an indexed assignment on a
  non-object).  When the source mutates `instance` in place and then
  throws, the embedding discards the partial update and returns only
  the error.
-/

/-- The ten primitive kinds of `SerialPrimitive` (serial.ts line 4). -/
inductive SerialPrimitive : Type
  | Int8 | Uint8 | Int16 | Uint16 | Int32 | Uint32
  | BigInt64 | BigUint64 | Float32 | Float64
deriving DecidableEq

/-- `SerialType` (serial.ts line 37): a primitive, the text kind
`'string'`, or a nested serializable class, identified with its
`__serial__` map. -/
inductive SerialType : Type
  | prim (p : SerialPrimitive)
  | str
  | nested (fields : List (String × SerialType × Option Nat))

/-- `SerialMap` (serial.ts line 78): ordered association of property
names to `SerialDef`s; a `SerialDef` (line 51) is the pair of a
`SerialType` and an optional array `length`. -/
abbrev SerialMap := List (String × SerialType × Option Nat)

/-- Byte width of each primitive: the `switch` inside `sizeof`
(serial.ts lines 180-201). -/
def primSize : SerialPrimitive → Nat
  | .Int8 | .Uint8 => 1
  | .Int16 | .Uint16 => 2
  | .Int32 | .Uint32 | .Float32 => 4
  | .BigInt64 | .BigUint64 | .Float64 => 8

mutual

/-- The per-entry `_size` computation of `sizeof` (serial.ts lines
179-208): primitives by width, `'string'` counts 1 byte per character
slot, a nested class recursively sums its own `__serial__` map. -/
def sizeofType : SerialType → Nat
  | .prim p => primSize p
  | .str => 1
  | .nested fields => sizeofMap fields

/-- `sizeof` over a whole `__serial__` map (serial.ts lines 170-212):
`size += _size * (length ?? 1)` for every entry.  Note the source has
no error path for `length = 0`; the entry simply contributes 0 bytes. -/
def sizeofMap : SerialMap → Nat
  | [] => 0
  | (_, t, len) :: rest => sizeofType t * (len.getD 1) + sizeofMap rest

end

/-- `sizeof` of a single `SerialDef` (serial.ts line 176, 209):
`_size * (length ?? 1)`. -/
def sizeofDef (t : SerialType) (len : Option Nat) : Nat :=
  sizeofType t * (len.getD 1)

/-- A JavaScript number: an exact rational (all finite doubles are
rationals), `NaN`, or a signed infinity. -/
inductive JSNum : Type
  | rat (q : ℚ)
  | nan
  | inf (neg : Bool)

/-- JavaScript runtime values occurring in serializable instances:
numbers, bigints, strings (as code-unit lists), booleans, `undefined`,
arrays, and serializable objects.  An object value carries its own
class's `__serial__` map, mirroring `value.constructor.__serial__`. -/
inductive JSVal : Type
  | num (x : JSNum)
  | big (z : Int)
  | jstr (codes : List Nat)
  | jsbool (b : Bool)
  | undef
  | arr (elems : List JSVal)
  | obj (schema : SerialMap) (fields : List (String × JSVal))

/-- An instance: the own properties of a serializable object. -/
abbrev Instance := List (String × JSVal)

/-- Property read `this[key]`; absent keys behave as `undefined` via
`Option.getD` at use sites. -/
def ilookup : Instance → String → Option JSVal
  | [], _ => none
  | (k, v) :: rest, key => if k = key then some v else ilookup rest key

/-- Property write `instance[key] = v`: overwrite in place if present,
else append. -/
def iset : Instance → String → JSVal → Instance
  | [], key, v => [(key, v)]
  | (k, w) :: rest, key, v =>
      if k = key then (k, v) :: rest else (k, w) :: iset rest key v

/-- JavaScript truthiness of the modelled values (used by
`instance[key] ||= []`, serial.ts line 397). -/
def truthy : JSVal → Bool
  | .num (.rat q) => q ≠ 0
  | .num .nan => false
  | .num (.inf _) => true
  | .big z => z ≠ 0
  | .jstr s => !s.isEmpty
  | .jsbool b => b
  | .undef => false
  | .arr _ => true
  | .obj _ _ => true

/-- Indexed array assignment `a[i] = v`.  In the decode loop `i` never
exceeds the current length, but the general case pads with `undefined`
like a JavaScript array would. -/
def setIdx (l : List JSVal) (i : Nat) (v : JSVal) : List JSVal :=
  if i < l.length then l.set i v
  else l ++ List.replicate (i - l.length) .undef ++ [v]

/-- ECMAScript truncation toward zero of a rational (the integer part
used by `ToInt16`, `ToUint8`, ...): `num.tdiv den` truncates toward
zero because `den > 0`. -/
def truncQ (q : ℚ) : Int :=
  q.num.tdiv q.den

/-- `ToIntN`/`ToUintN` composed with the raw byte view: truncate toward
zero and reduce modulo `2 ^ w`; `NaN` and infinities map to 0.  Signed
and unsigned setters write identical bytes, so only the unsigned
residue is needed. -/
def toWrapped (w : Nat) (x : JSNum) : Nat :=
  match x with
  | .rat q => ((truncQ q).emod (2 ^ w)).toNat
  | .nan => 0
  | .inf _ => 0

/-- Big-endian byte expansion: byte `i` is the coefficient of
`256 ^ (w - 1 - i)` (most significant byte first, the `DataView`
default). -/
def beBytes (w : Nat) (n : Nat) : List Nat :=
  (List.range w).map fun i => n / 256 ^ (w - 1 - i) % 256

/-- Big-endian recomposition of a byte list (most significant byte
first), as read by the `DataView` getters. -/
def beFold (bs : List Nat) : Nat :=
  bs.foldl (fun a b => a * 256 + b) 0

/-- Two's-complement reinterpretation of a `w`-bit unsigned value, used
by the signed getters. -/
def signedOf (w : Nat) (n : Nat) : Int :=
  if n < 2 ^ (w - 1) then (n : Int) else (n : Int) - 2 ^ w

/-- Errors of the embedding; each constructor corresponds to a `throw`
site in serial.ts or a built-in exception:
`zeroLength` = lines 302/387; `notAString` = line 310; `notAnArray` =
line 314; `wrongPrimitive` = line 318; `elementNotSerializable` = line
340; `invalidType` = lines 306/362/391/414; `typeError` = a built-in
`TypeError` (bigint handed to a number setter or `Uint8Array.set`,
property write on a non-object); `rangeError` = a built-in `RangeError`
(out-of-bounds `DataView`/`TypedArray` access). -/
inductive SerialError : Type
  | zeroLength | notAString | notAnArray | wrongPrimitive
  | elementNotSerializable | invalidType
  | typeError | rangeError
deriving DecidableEq

/-- A coerced array element after the `flatMap` of serial.ts lines
326-348: a number or a bigint. -/
inductive Coerced : Type
  | n (x : JSNum)
  | b (z : Int)

/-- Bounded byte-range overwrite: the common semantics of
`Uint8Array.prototype.set` and the `DataView` setters (both raise
`RangeError` when the write would run past the end of the buffer). -/
def writeBytesE (data : List Nat) (off : Nat) (bs : List Nat) :
    Except SerialError (List Nat) :=
  if off + bs.length ≤ data.length then
    .ok (data.take off ++ bs ++ data.drop (off + bs.length))
  else .error .rangeError

/-- Floating-point exponent/mantissa layouts. -/
def f32ExpBits : Nat := 8
/-- Mantissa width of binary32. -/
def f32MantBits : Nat := 23
/-- Exponent width of binary64. -/
def f64ExpBits : Nat := 11
/-- Mantissa width of binary64. -/
def f64MantBits : Nat := 52

/-- `2 ^ k` as a rational, for integer `k`. -/
def pow2q (k : Int) : ℚ :=
  if 0 ≤ k then ((2 ^ k.toNat : Nat) : ℚ) else 1 / ((2 ^ (-k).toNat : Nat) : ℚ)

/-- Floor of the base-2 logarithm of a positive rational. -/
def ratLog2 (a : ℚ) : Int :=
  let c : Int := (Nat.log2 a.num.toNat : Int) - (Nat.log2 a.den : Int)
  if pow2q (c + 1) ≤ a then c + 1 else if pow2q c ≤ a then c else c - 1

/-- Round a nonnegative rational to the nearest integer, ties to even
(IEEE-754 `roundTiesToEven`). -/
def rndHalfEven (a : ℚ) : Nat :=
  let n := a.num.toNat
  let d := a.den
  let q := n / d
  let r := n % d
  if 2 * r < d then q else if d < 2 * r then q + 1
  else if q % 2 = 0 then q else q + 1

/-- ECMAScript `NumericToRawBytes` for the float types: round the value
to the target format with `roundTiesToEven` and produce the bit
pattern.  For `NaN` the ECMAScript specification leaves the pattern
implementation-defined; V8 (the engine the library's test suite runs
on) writes the canonical quiet NaN (`0x7FC00000` / `0x7FF8…`), which is
what this embedding uses — any NaN pattern has all exponent bits set,
hence a nonzero byte. -/
def encodeFloatBits (expBits mantBits : Nat) (x : JSNum) : Nat :=
  let bias : Nat := 2 ^ (expBits - 1) - 1
  let expMax : Nat := 2 ^ expBits - 1
  match x with
  | .nan => expMax * 2 ^ mantBits + 2 ^ (mantBits - 1)
  | .inf neg => (if neg then 2 ^ (expBits + mantBits) else 0) + expMax * 2 ^ mantBits
  | .rat q =>
      if q = 0 then 0
      else
        let s : Nat := if q < 0 then 2 ^ (expBits + mantBits) else 0
        let a : ℚ := |q|
        let emin : Int := 1 - (bias : Int)
        let e0 : Int := max (ratLog2 a) emin
        let m0 : Nat := rndHalfEven (a * pow2q ((mantBits : Int) - e0))
        let m : Nat := if m0 = 2 ^ (mantBits + 1) then 2 ^ mantBits else m0
        let e : Int := if m0 = 2 ^ (mantBits + 1) then e0 + 1 else e0
        if (bias : Int) < e then s + expMax * 2 ^ mantBits
        else if m < 2 ^ mantBits then s + m
        else s + (e - emin + 1).toNat * 2 ^ mantBits + (m - 2 ^ mantBits)

/-- ECMAScript `RawBytesToNumeric` for the float types: decode a bit
pattern to its exact rational value, `NaN`, or an infinity (`-0`
decodes to `0` in this model). -/
def decodeFloatBits (expBits mantBits : Nat) (bits : Nat) : JSNum :=
  let sign := bits / 2 ^ (expBits + mantBits)
  let e := bits / 2 ^ mantBits % 2 ^ expBits
  let m := bits % 2 ^ mantBits
  let bias := 2 ^ (expBits - 1) - 1
  if e = 2 ^ expBits - 1 then
    if m = 0 then .inf (sign = 1) else .nan
  else
    let mag : ℚ :=
      if e = 0 then (m : ℚ) / 2 ^ (bias + mantBits - 1)
      else ((2 ^ mantBits + m : Nat) : ℚ) * 2 ^ e / 2 ^ (bias + mantBits)
    .rat (if sign = 1 then -mag else mag)

/-- Big-endian bytes written by `view.setFloat32`. -/
def f32bytes (x : JSNum) : List Nat :=
  beBytes 4 (encodeFloatBits f32ExpBits f32MantBits x)

/-- Big-endian bytes written by `view.setFloat64`. -/
def f64bytes (x : JSNum) : List Nat :=
  beBytes 8 (encodeFloatBits f64ExpBits f64MantBits x)

/-- `view['set' + type](…, value)` (serial.ts lines 351/357): the bytes
a `DataView` setter produces, with the `littleEndian` argument omitted,
hence big-endian.  A bigint handed to a number setter — or a number to a
bigint setter — raises `TypeError` per ECMAScript. -/
def viewSet (p : SerialPrimitive) (el : Coerced) : Except SerialError (List Nat) :=
  match p, el with
  | .Int8, .n x | .Uint8, .n x => .ok [toWrapped 8 x]
  | .Int16, .n x | .Uint16, .n x => .ok (beBytes 2 (toWrapped 16 x))
  | .Int32, .n x | .Uint32, .n x => .ok (beBytes 4 (toWrapped 32 x))
  | .Float32, .n x => .ok (f32bytes x)
  | .Float64, .n x => .ok (f64bytes x)
  | .BigInt64, .b z | .BigUint64, .b z => .ok (beBytes 8 ((z.emod (2 ^ 64)).toNat))
  | _, _ => .error .typeError

/-- `view['get' + type](offset)` (serial.ts lines 399/410): bounds
check, then a big-endian read (the `littleEndian` argument is omitted).
Number kinds produce doubles, the 64-bit kinds produce bigints. -/
def getPrim (p : SerialPrimitive) (buf : List Nat) (off : Nat) :
    Except SerialError JSVal :=
  let w := primSize p
  if off + w ≤ buf.length then
    let n := beFold ((buf.drop off).take w)
    .ok (match p with
      | .Uint8 => .num (.rat n)
      | .Int8 => .num (.rat (signedOf 8 n))
      | .Uint16 => .num (.rat n)
      | .Int16 => .num (.rat (signedOf 16 n))
      | .Uint32 => .num (.rat n)
      | .Int32 => .num (.rat (signedOf 32 n))
      | .BigUint64 => .big n
      | .BigInt64 => .big (signedOf 64 n)
      | .Float32 => .num (decodeFloatBits f32ExpBits f32MantBits n)
      | .Float64 => .num (decodeFloatBits f64ExpBits f64MantBits n))
  else .error .rangeError

/-- Per-element conversion of `Uint8Array.prototype.set`: bounds were
already checked; each element goes through `ToNumber`/`ToUint8`
(truncate, mod 256; `NaN` to 0); a bigint element raises `TypeError`. -/
def coercedToBytes : List Coerced → Except SerialError (List Nat)
  | [] => .ok []
  | .n x :: rest =>
      match coercedToBytes rest with
      | .error e => .error e
      | .ok bs => .ok (toWrapped 8 x :: bs)
  | .b _ :: _ => .error .typeError

/-- `data.set(arrayData, offset)` (serial.ts line 354): one byte per
element — note this writes a multi-byte numeric element as a single
byte. -/
def setCoerced (data : List Nat) (off : Nat) (arrayData : List Coerced) :
    Except SerialError (List Nat) :=
  if off + arrayData.length ≤ data.length then
    match coercedToBytes arrayData with
    | .error e => .error e
    | .ok bs => writeBytesE data off bs
  else .error .rangeError

/-- The float-array write loop (serial.ts lines 350-352):
`for (let i = 0; i < length; i++) view['set'+type](offset + i*(size/length), arrayData[i])`.
Indexing past `arrayData.length` yields `undefined`, which the setter
converts to `NaN`. -/
def floatLoop (data : List Nat) (p : SerialPrimitive) (base stride : Nat)
    (arrayData : List Coerced) : Nat → Nat → Except SerialError (List Nat)
  | 0, _ => .ok data
  | k + 1, i =>
      match viewSet p (arrayData.getD i (.n .nan)) with
      | .error e => .error e
      | .ok bs =>
          match writeBytesE data (base + i * stride) bs with
          | .error e => .error e
          | .ok data' => floatLoop data' p base stride arrayData k (i + 1)

/-- `typeof value === serialPrimitiveValue(type)` (serial.ts line 317):
the 64-bit integer kinds require a bigint, every other primitive a
number. -/
def typeofMatches (t : SerialType) (v : JSVal) : Bool :=
  match t, v with
  | .prim .BigInt64, .big _ | .prim .BigUint64, .big _ => true
  | .prim .BigInt64, _ | .prim .BigUint64, _ => false
  | .prim _, .num _ => true
  | _, _ => false

/-- `typeof value == 'string'` style tests used by the checks. -/
def isStrVal : JSVal → Bool
  | .jstr _ => true
  | _ => false

/-- `Array.isArray(value)`. -/
def isArrVal : JSVal → Bool
  | .arr _ => true
  | _ => false

/-- Truthiness of the `length` field of a `SerialDef` (a JS number:
`0` is falsy, any other count truthy). -/
def lenTruthy : Option Nat → Bool
  | some n => n != 0
  | none => false

/-- `isSerialPrimitive(type)`. -/
def isPrimType : SerialType → Bool
  | .prim _ => true
  | _ => false

/-- `type == 'Float32' || type == 'Float64'` (serial.ts line 349). -/
def isFloatType : SerialType → Bool
  | .prim .Float32 | .prim .Float64 => true
  | _ => false

/-- `type === 'string'`. -/
def isStrType : SerialType → Bool
  | .str => true
  | _ => false

theorem sizeOf_ilookup_lt (inst : Instance) (key : String) (v : JSVal)
    (h : ilookup inst key = some v) : sizeOf v < sizeOf inst := by
  induction inst with
  | nil => simp [ilookup] at h
  | cons hd tl ih =>
      obtain ⟨k, w⟩ := hd
      simp only [ilookup] at h
      by_cases hk : k = key
      · rw [if_pos hk] at h
        cases h
        simp only [List.cons.sizeOf_spec, Prod.mk.sizeOf_spec]
        omega
      · rw [if_neg hk] at h
        have := ih h
        simp only [List.cons.sizeOf_spec]
        omega

theorem sizeOf_ilookup_le (inst : Instance) (key : String) :
    sizeOf ((ilookup inst key).getD JSVal.undef) ≤ sizeOf inst := by
  cases h : ilookup inst key with
  | none =>
      simp only [Option.getD_none]
      cases inst <;> simp [JSVal.undef.sizeOf_spec] <;> omega

  | some v =>
      simp only [Option.getD_some]
      exact Nat.le_of_lt (sizeOf_ilookup_lt inst key v h)

mutual

/-- Per-element coercion of the `flatMap` callback (serial.ts lines
327-347): a string element contributes its `charCodeAt(0)` (`NaN` for
the empty string), numbers and bigints pass through, booleans become
1/0, `undefined` becomes 0, a serializable object element is recursively
serialized and its bytes are spliced in, and any other object raises. -/
def coerceEl : JSVal → Except SerialError (List Coerced)
  | .jstr codes =>
      .ok [.n (match codes with | [] => JSNum.nan | c :: _ => .rat c)]
  | .big z => .ok [.b z]
  | .num x => .ok [.n x]
  | .jsbool b => .ok [.n (.rat (if b then 1 else 0))]
  | .undef => .ok [.n (.rat 0)]
  | .obj s i =>
      match serializeObj s i with
      | .error e => .error e
      | .ok bytes => .ok (bytes.map fun b => .n (.rat b))
  | .arr _ => .error .elementNotSerializable
termination_by v => (sizeOf v, 0)

/-- `value.flatMap(...)`: concatenation of the per-element coercions. -/
def coerceList : List JSVal → Except SerialError (List Coerced)
  | [] => .ok []
  | v :: rest =>
      match coerceEl v with
      | .error e => .error e
      | .ok a =>
          match coerceList rest with
          | .error e => .error e
          | .ok b => .ok (a ++ b)
termination_by vs => (sizeOf vs, 0)

/-- The `value.flatMap(...)` source sequence: a string value was first
split into its characters (serial.ts line 322), so a text field
contributes its code units directly (each single-character string
coerces to its own code); an array value is coerced elementwise.
Caveat: the source's `[...value]` splits by code points, so an astral
character contributes only its high surrogate via `charCodeAt(0)`;
this model treats strings as code-unit sequences, which agrees with
the source for strings without surrogate pairs. -/
def getArrayData (value : JSVal) : Except SerialError (List Coerced) :=
  match value with
  | .jstr codes => .ok (codes.map fun c => .n (.rat c))
  | .arr elems => coerceList elems
  | _ => .error .notAnArray
termination_by (sizeOf value, 0)

/-- One iteration of the `serialize` field loop (serial.ts lines
295-365) for a field of type `t`, declared length `len`, and property
value `value`, after the `length === 0` guard (which `serializeFields`
performs as the loop body's first statement, line 301): the remaining
guard checks in source order, then the array/scalar/nested write
paths.  The truncation of the coerced array
is `.slice(0, size)` — `size` counts bytes, not elements (line 348). -/
def serializeField (t : SerialType) (len : Option Nat) (value : JSVal)
    (data : List Nat) (offset : Nat) : Except SerialError (List Nat) :=
  let size := sizeofDef t len
  if isStrType t && !isStrVal value then .error .notAString
  else if lenTruthy len && !isArrVal value && !isStrType t then .error .notAnArray
  else if !lenTruthy len && isPrimType t && !typeofMatches t value then
    .error .wrongPrimitive
  else if lenTruthy len then
    let n := len.getD 1
    match getArrayData value with
    | .error e => .error e
    | .ok co =>
        let arrayData := co.take size
        if isFloatType t then
          match t with
          | .prim p => floatLoop data p offset (size / n) arrayData n 0
          | _ => .error .invalidType
        else setCoerced data offset arrayData
  else
    match t with
    | .prim p =>
        match value with
        | .num x =>
            match viewSet p (.n x) with
            | .error e => .error e
            | .ok bs => writeBytesE data offset bs
        | .big z =>
            match viewSet p (.b z) with
            | .error e => .error e
            | .ok bs => writeBytesE data offset bs
        | _ => .error .wrongPrimitive
    | .nested _ =>
        match value with
        | .obj s' i' =>
            match serializeObj s' i' with
            | .error e => .error e
            | .ok bytes => writeBytesE data offset bytes
        | _ => .error .typeError
    | .str => .error .invalidType
termination_by (sizeOf value, 1)

/-- The `serialize` field loop (serial.ts lines 295-366): the
`length === 0` rejection (line 301) comes first in each iteration, then
the field is written at the running offset, which advances by
`sizeof(def)`. -/
def serializeFields : SerialMap → Instance → List Nat → Nat →
    Except SerialError (List Nat)
  | [], _, data, _ => .ok data
  | (key, t, len) :: rest, inst, data, offset =>
      if len = some 0 then .error .zeroLength
      else
        match serializeField t len ((ilookup inst key).getD .undef) data offset with
        | .error e => .error e
        | .ok data' => serializeFields rest inst data' (offset + sizeofDef t len)
termination_by fields inst data offset => (sizeOf inst, 2 + sizeOf fields)
decreasing_by
  · simp_wf
    rw [Prod.lex_def]
    rcases Nat.lt_or_eq_of_le (sizeOf_ilookup_le inst key) with h' | h'
    · exact Or.inl h'
    · exact Or.inr ⟨h', by simp only [List.cons.sizeOf_spec]; omega⟩
  · simp_wf
    rw [Prod.lex_def]
    exact Or.inr ⟨rfl, by simp only [List.cons.sizeOf_spec]; omega⟩

/-- `serialize` (serial.ts lines 291-369): allocate a zero buffer of
`sizeof(this)` bytes and run the field loop.  An object value always
serializes against its own class's `__serial__` map (the source calls
`type.prototype.serialize.call(value)`, and `serialize` reads
`this.constructor.__serial__`). -/
def serializeObj (s : SerialMap) (inst : Instance) :
    Except SerialError (List Nat) :=
  serializeFields s inst (List.replicate (sizeofMap s) 0) 0
termination_by (sizeOf inst, 3 + sizeOf s)

end

/-- The repeated-numeric decode loop (serial.ts lines 398-400):
`for (let i = 0; i < length; i++) instance[key][i] = view['get'+type](offset + i*(size/length))`. -/
def readPrimLoop (p : SerialPrimitive) (buf : List Nat) (base stride : Nat) :
    Nat → Nat → List JSVal → Except SerialError (List JSVal)
  | 0, _, arrv => .ok arrv
  | k + 1, i, arrv =>
      match getPrim p buf (base + i * stride) with
      | .error e => .error e
      | .ok v => readPrimLoop p buf base stride k (i + 1) (setIdx arrv i v)

/-- `charArray.reduce((index, char, i) => (char == 0 ? index : i), 0) + 1`
(serial.ts line 403): one past the index of the last nonzero byte, or 1
when every byte is zero (or the slot is empty). -/
def lastCharOf (charArray : List Nat) : Nat :=
  (charArray.enum.foldl (fun idx p => if p.2 = 0 then idx else p.1) 0) + 1

mutual

/-- One iteration of the `Deserialize` field loop (serial.ts lines
381-418), after the `length === 0` guard (performed first by
`deserializeFields`, line 386).  Repeated numeric fields reuse an existing array value
(`instance[key] ||= []` keeps any truthy current value; an indexed
write on a truthy non-array is modelled as `TypeError` — exact for the
primitive values, while a truthy plain object would in fact silently
accept indexed properties; no theorem exercises that branch).  Repeated text fields
apply the NUL-seeking slice `slice(0, lastChar || charArray.length)`.
A repeated nested field matches no branch in the source and is silently
skipped.  Scalar primitives are read directly; a scalar nested field
recursively decodes the sub-buffer slice into a fresh instance; a
scalar `'string'` field falls through to the `throw` at line 414. -/
def deserializeField (key : String) (t : SerialType) (len : Option Nat)
    (buf : List Nat) (offset : Nat) (inst : Instance) :
    Except SerialError Instance :=
  let size := sizeofDef t len
  if lenTruthy len then
    let n := len.getD 1
    let arraybuffer := (buf.drop offset).take size
    match t with
    | .prim p =>
        let cur := (ilookup inst key).getD .undef
        match (if truthy cur then
                 (match cur with
                  | .arr l => Except.ok l
                  | _ => Except.error SerialError.typeError)
               else .ok []) with
        | .error e => .error e
        | .ok arr0 =>
            match readPrimLoop p buf offset (size / n) n 0 arr0 with
            | .error e => .error e
            | .ok arrv => .ok (iset inst key (.arr arrv))
    | .str =>
        let charArray := arraybuffer
        let lastChar := lastCharOf charArray
        .ok (iset inst key
          (.jstr (charArray.take (if lastChar = 0 then charArray.length else lastChar))))
    | .nested _ => .ok inst
  else
    match t with
    | .prim p =>
        match getPrim p buf offset with
        | .error e => .error e
        | .ok v => .ok (iset inst key v)
    | .nested s' =>
        match deserializeFields s' ((buf.drop offset).take size) [] 0 with
        | .error e => .error e
        | .ok i' => .ok (iset inst key (.obj s' i'))
    | .str => .error .invalidType

/-- The `Deserialize` field loop (serial.ts lines 381-418): the
`length === 0` rejection (line 386) comes first in each iteration; the
running-offset discipline matches `serialize`. -/
def deserializeFields (s : SerialMap) (buf : List Nat) (inst : Instance)
    (offset : Nat) : Except SerialError Instance :=
  match s with
  | [] => .ok inst
  | (key, t, len) :: rest =>
      if len = some 0 then .error .zeroLength
      else
        match deserializeField key t len buf offset inst with
        | .error e => .error e
        | .ok inst' => deserializeFields rest buf inst' (offset + sizeofDef t len)

end

/-- `Deserialize` applied to a buffer, starting from a given instance
(`new this()` is modelled by `[]`). -/
def DeserializeObj (s : SerialMap) (buf : List Nat) (inst : Instance) :
    Except SerialError Instance :=
  deserializeFields s buf inst 0

/-- The `data : ArrayBuffer | ArrayBufferView` argument of
`Deserialize` (serial.ts line 377): either a raw buffer or a typed view
carrying its underlying buffer, a byte offset and a byte length. -/
inductive BufferArg : Type
  | raw (buffer : List Nat)
  | view (buffer : List Nat) (byteOffset byteLength : Nat)

/-- `Deserialize` entry point (serial.ts lines 377-379):
`const buffer = 'buffer' in data ? data.buffer : data` — a view
contributes only its underlying `ArrayBuffer`; its `byteOffset` and
`byteLength` are never consulted. -/
def Deserialize (s : SerialMap) (data : BufferArg) (inst : Instance) :
    Except SerialError Instance :=
  DeserializeObj s
    (match data with
     | .raw b => b
     | .view b _ _ => b) inst


/-- C2 (code bug): the round-trip property fails for repeated
multi-byte integer fields.  For the schema `{f: Int16[2]}` and the
instance `{f: [1, 2]}`, encode writes each element as a single byte
(`data.set(arrayData, offset)`, serial.ts line 354), producing
`[1, 2, 0, 0]`, while decode reads per-element at the 2-byte stride
(line 399), recovering `[258, 0]` instead of `[1, 2]`. -/
theorem int16_array_roundtrip_fails :
    serializeObj [("f", .prim .Int16, some 2)]
        [("f", .arr [.num (.rat 1), .num (.rat 2)])]
      = .ok [1, 2, 0, 0]
    ∧ DeserializeObj [("f", .prim .Int16, some 2)] [1, 2, 0, 0] []
      = .ok [("f", .arr [.num (.rat 258), .num (.rat 0)])] := by
  constructor
  · simp [serializeObj, serializeFields, serializeField, sizeofMap, sizeofType, sizeofDef,
          primSize, isStrType, isStrVal, isArrVal, lenTruthy, isPrimType, isFloatType,
          typeofMatches, viewSet, beBytes, toWrapped, truncQ, writeBytesE, ilookup,
          getArrayData, coerceList, coerceEl, setCoerced, coercedToBytes, List.replicate]
    decide
  · simp [DeserializeObj, deserializeFields, deserializeField, sizeofDef, sizeofType,
          primSize, lenTruthy, getPrim, beFold, signedOf, iset, ilookup, truthy,
          readPrimLoop, setIdx]

/-- C3 (code bug): for a repeated `Int16` field with repeat count 2 and
the four-element value `[1, 2, 3, 4]`, encode does not keep only the
first 2 elements, and does not write element `i` as 2 bytes at
`offset + 2 i`: the truncation is `.slice(0, size)` with `size` in
bytes (serial.ts line 348), and the write is bytewise (line 354), so
all four elements land as the four single bytes `[1, 2, 3, 4]`. -/
theorem int16_array_encode_bytewise :
    serializeObj [("f", .prim .Int16, some 2)]
        [("f", .arr [.num (.rat 1), .num (.rat 2), .num (.rat 3), .num (.rat 4)])]
      = .ok [1, 2, 3, 4] := by
  simp [serializeObj, serializeFields, serializeField, sizeofMap, sizeofType, sizeofDef,
        primSize, isStrType, isStrVal, isArrVal, lenTruthy, isPrimType, isFloatType,
        typeofMatches, viewSet, beBytes, toWrapped, truncQ, writeBytesE, ilookup,
        getArrayData, coerceList, coerceEl, setCoerced, coercedToBytes, List.replicate]
  decide

/-- C4 counterexample: `sizeof` does not fail on a field with
`length = 0` — the source has no such check (its only throws are for
unrecognized kinds), and the entry contributes `_size * 0 = 0` bytes,
so the schema `[{a: Int8, length 0}]` sizes to `0` without error,
contradicting the claim that `size` fails with a SchemaError at
layout-computation time. -/
theorem sizeof_zero_repeat_returns_zero :
    sizeofMap [("a", .prim .Int8, some 0)] = 0 := by
  decide

/-- C5 counterexample: decoding a 3-byte all-zero text slot yields the
single-character string `"\0"`, not the full 3-byte zero string the
claim asserts: `lastChar` (serial.ts line 403) is
`reduce(...) + 1 = 1` for an all-zero slot, and since `1` is truthy the
fallback `lastChar || charArray.length` never engages. -/
theorem all_zero_text_decodes_single_nul :
    DeserializeObj [("c", .str, some 3)] [0, 0, 0] [] = .ok [("c", .jstr [0])]
    ∧ ([0] : List Nat) ≠ [0, 0, 0] := by
  constructor
  · simp [DeserializeObj, deserializeFields, deserializeField, sizeofDef, sizeofType,
          primSize, lenTruthy, iset, lastCharOf, List.enum]
  · decide

/-- C6 counterexample: decoding a 2-byte buffer against a schema of
size 5 (one text field of repeat 5) does not fail at all — there is no
upfront length check in `Deserialize`, and `buffer.slice` clamps, so
the call silently succeeds with the shortened string `"hi"`. -/
theorem short_buffer_text_decode_succeeds :
    DeserializeObj [("c", .str, some 5)] [104, 105] []
      = .ok [("c", .jstr [104, 105])] := by
  simp [DeserializeObj, deserializeFields, deserializeField, sizeofDef, sizeofType,
        primSize, lenTruthy, iset, lastCharOf, List.enum]

/-- C7 (code bug): encoding a repeated `Float32` field whose source
array is shorter than its repeat count does not zero-fill the missing
slots: the float write loop (serial.ts lines 350-352) runs over all
`length` slots and reads `arrayData[i]`, which is `undefined` past the
end; `setFloat32` converts `undefined` to `NaN` and writes a NaN bit
pattern (canonical `0x7FC00000`; any NaN pattern has a nonzero
exponent byte), and decoding recovers `NaN`, not `0`.  The `flatMap`
coercion maps an `undefined` *element* to `0` (line 337), so the
zero-fill described by the claim was evidently the intent. -/
theorem float_array_short_fill_nan :
    serializeObj [("f", .prim .Float32, some 1)] [("f", .arr [])]
      = .ok [0x7F, 0xC0, 0x00, 0x00]
    ∧ DeserializeObj [("f", .prim .Float32, some 1)] [0x7F, 0xC0, 0x00, 0x00] []
      = .ok [("f", .arr [.num .nan])]
    ∧ ([0x7F, 0xC0, 0x00, 0x00] : List Nat) ≠ [0, 0, 0, 0] := by
  refine ⟨?_, ?_, by decide⟩
  · simp [serializeObj, serializeFields, serializeField, sizeofMap, sizeofType, sizeofDef,
          primSize, isStrType, isStrVal, isArrVal, lenTruthy, isPrimType, isFloatType,
          typeofMatches, viewSet, beBytes, toWrapped, truncQ, writeBytesE, ilookup,
          getArrayData, coerceList, coerceEl, floatLoop, f32bytes, encodeFloatBits,
          f32ExpBits, f32MantBits, List.replicate]
    decide
  · simp [DeserializeObj, deserializeFields, deserializeField, sizeofDef, sizeofType,
          primSize, lenTruthy, getPrim, beFold, signedOf, iset, ilookup, truthy,
          readPrimLoop, setIdx, decodeFloatBits, f32ExpBits, f32MantBits]

/-- C9: `Deserialize` reads from byte 0 of a view's underlying
`ArrayBuffer`, ignoring the view's `byteOffset` and `byteLength`
(serial.ts line 378 takes `data.buffer`): decoding any view equals
decoding its raw underlying buffer, and concretely a `Uint8Array` view
at `byteOffset 2` of the buffer `[7, 8, 9]` decodes a `Uint8` field to
`7` (byte 0 of the underlying buffer), not `9`. -/
theorem decode_ignores_view_offset :
    (∀ (s : SerialMap) (b : List Nat) (off len : Nat) (inst : Instance),
        Deserialize s (.view b off len) inst = Deserialize s (.raw b) inst)
    ∧ Deserialize [("a", .prim .Uint8, none)] (.view [7, 8, 9] 2 1) []
      = .ok [("a", .num (.rat 7))] := by
  refine ⟨fun s b off len inst => rfl, ?_⟩
  simp [Deserialize, DeserializeObj, deserializeFields, deserializeField, sizeofDef,
        sizeofType, primSize, lenTruthy, getPrim, beFold, iset]

theorem sizeofMap_eq_sum (s : SerialMap) :
    sizeofMap s = (s.map fun f => sizeofType f.2.1 * (f.2.2.getD 1)).sum := by
  induction s with
  | nil => simp [sizeofMap]
  | cons f rest ih =>
      obtain ⟨k, t, len⟩ := f
      simp [sizeofMap, ih]

/-- C8: `sizeof` of a schema is the sum over its fields of
`elementWidth * (length ?? 1)`, where the element width of a nested
kind is recursively the `sizeof` of the nested schema, and permuting
the field order never changes the total. -/
theorem sizeof_additive_and_perm_invariant :
    (∀ s : SerialMap,
        sizeofMap s = (s.map fun f => sizeofType f.2.1 * (f.2.2.getD 1)).sum)
    ∧ (∀ m : SerialMap, sizeofType (SerialType.nested m) = sizeofMap m)
    ∧ (∀ s₁ s₂ : SerialMap, s₁.Perm s₂ → sizeofMap s₁ = sizeofMap s₂) := by
  refine ⟨sizeofMap_eq_sum, fun m => rfl, fun s₁ s₂ h => ?_⟩
  rw [sizeofMap_eq_sum, sizeofMap_eq_sum]
  exact List.Perm.sum_eq (h.map _)

/-- C8 witness: swapping the two fields of a concrete schema preserves
its size. -/
theorem sizeof_additive_and_perm_invariant_witness :
    sizeofMap [("a", .prim .Int16, none), ("b", .str, some 5)]
      = sizeofMap [("b", .str, some 5), ("a", .prim .Int16, none)] :=
  sizeof_additive_and_perm_invariant.2.2 _ _ (List.Perm.swap _ _ _)

theorem serializeFields_zero_repeat (key : String) (t : SerialType)
    (post : SerialMap) :
    ∀ (pre : SerialMap) (inst : Instance) (data : List Nat) (off : Nat),
      ∃ e, serializeFields (pre ++ (key, t, some 0) :: post) inst data off
        = .error e := by
  intro pre
  induction pre with
  | nil =>
      intro inst data off
      exact ⟨.zeroLength, by simp [serializeFields]⟩
  | cons f rest ih =>
      intro inst data off
      obtain ⟨k', t', len'⟩ := f
      rw [List.cons_append]
      by_cases hz : len' = some 0
      · exact ⟨.zeroLength, by simp [serializeFields, hz]⟩
      · cases h : serializeField t' len' ((ilookup inst k').getD .undef) data off with
        | error e => exact ⟨e, by simp [serializeFields, hz, h]⟩
        | ok data' =>
            obtain ⟨e, he⟩ := ih inst data' (off + sizeofDef t' len')
            exact ⟨e, by simp [serializeFields, hz, h, he]⟩

theorem deserializeFields_zero_repeat (key : String) (t : SerialType)
    (post : SerialMap) (buf : List Nat) :
    ∀ (pre : SerialMap) (inst : Instance) (off : Nat),
      ∃ e, deserializeFields (pre ++ (key, t, some 0) :: post) buf inst off
        = .error e := by
  intro pre
  induction pre with
  | nil =>
      intro inst off
      exact ⟨.zeroLength, by simp [deserializeFields]⟩
  | cons f rest ih =>
      intro inst off
      obtain ⟨k', t', len'⟩ := f
      rw [List.cons_append]
      by_cases hz : len' = some 0
      · exact ⟨.zeroLength, by simp [deserializeFields, hz]⟩
      · cases h : deserializeField k' t' len' buf off inst with
        | error e => exact ⟨e, by simp [deserializeFields, hz, h]⟩
        | ok inst' =>
            obtain ⟨e, he⟩ := ih inst' (off + sizeofDef t' len')
            exact ⟨e, by simp [deserializeFields, hz, h, he]⟩

/-- C4 (amended): a schema containing a field with `length = 0` makes
`serialize` and `Deserialize` fail — but only when the field loop
reaches that field (the output buffer is already allocated and the
preceding fields already processed), and `sizeof` does not fail at all
(it treats the field as contributing `0` bytes, see
`sizeof_zero_repeat_returns_zero`). -/
theorem zero_repeat_encode_decode_error (pre post : SerialMap) (key : String)
    (t : SerialType) (inst : Instance) (buf : List Nat) :
    (∃ e, serializeObj (pre ++ (key, t, some 0) :: post) inst = .error e)
    ∧ (∃ e, DeserializeObj (pre ++ (key, t, some 0) :: post) buf inst = .error e) := by
  constructor
  · obtain ⟨e, he⟩ := serializeFields_zero_repeat key t post pre inst
      (List.replicate (sizeofMap (pre ++ (key, t, some 0) :: post)) 0) 0
    exact ⟨e, by simpa [serializeObj] using he⟩
  · obtain ⟨e, he⟩ := deserializeFields_zero_repeat key t post buf pre inst 0
    exact ⟨e, by simpa [DeserializeObj] using he⟩

/-- C6 (amended): `Deserialize` performs no upfront buffer-size check.
A text field clamps its slice, so decoding any buffer — however short —
against a text-only schema succeeds; a scalar numeric read past the end
of the buffer fails with the built-in `RangeError` of the `DataView`
getter at the moment of that read, not with a dedicated
buffer-too-small error before any field is processed. -/
theorem decode_no_upfront_size_check :
    (∀ buf : List Nat, ∃ r, DeserializeObj [("c", .str, some 5)] buf [] = .ok r)
    ∧ (∀ buf : List Nat, buf.length < 2 →
        DeserializeObj [("a", .prim .Int16, none)] buf []
          = .error .rangeError) := by
  constructor
  · intro buf
    simp [DeserializeObj, deserializeFields, deserializeField, sizeofDef,
          sizeofType, lenTruthy]
  · intro buf h
    have h2 : ¬ (2 ≤ buf.length) := by omega
    simp [DeserializeObj, deserializeFields, deserializeField, sizeofDef,
          sizeofType, primSize, lenTruthy, getPrim, h2]

/-- C6 witness: the empty buffer makes the scalar `Int16` read fail
with `RangeError`, and a 2-byte buffer decodes against the 5-byte text
schema without any error. -/
theorem decode_no_upfront_size_check_witness :
    DeserializeObj [("a", .prim .Int16, none)] [] [] = .error .rangeError
    ∧ ∃ r, DeserializeObj [("c", .str, some 5)] [104, 105] [] = .ok r :=
  ⟨decode_no_upfront_size_check.2 [] (by decide),
   decode_no_upfront_size_check.1 [104, 105]⟩

theorem writeBytesE_fresh (w : Nat) (bs : List Nat) (h : bs.length = w) :
    writeBytesE (List.replicate w 0) 0 bs = .ok bs := by
  subst h
  simp [writeBytesE]

theorem setIdx_length (l : List JSVal) (i : Nat) (v : JSVal) (h : i ≤ l.length) :
    (setIdx l i v).length = max l.length (i + 1) := by
  rcases Nat.lt_or_ge i l.length with h' | h'
  · simp [setIdx, h']
    omega
  · have hi : i = l.length := by omega
    subst hi
    simp [setIdx]

theorem setIdx_get_self (l : List JSVal) (i : Nat) (v : JSVal) (h : i ≤ l.length) :
    (setIdx l i v)[i]? = some v := by
  rcases Nat.lt_or_ge i l.length with h' | h'
  · simp [setIdx, h', List.getElem?_set_self]
  · have hi : i = l.length := by omega
    subst hi
    simp [setIdx]

theorem setIdx_get_other (l : List JSVal) (i : Nat) (v : JSVal) (j : Nat)
    (h : i ≤ l.length) (hj : j ≠ i) :
    (setIdx l i v)[j]? = l[j]? := by
  rcases Nat.lt_or_ge i l.length with h' | h'
  · simp only [setIdx, if_pos h']
    exact List.getElem?_set_ne (fun hh => hj hh.symm)
  · have hi : i = l.length := by omega
    subst hi
    simp only [setIdx, Nat.lt_irrefl, if_neg (Nat.lt_irrefl _), Nat.sub_self,
               List.replicate, List.nil_append]
    rcases Nat.lt_or_ge j l.length with hjl | hjl
    · simp [List.getElem?_append, hjl]
    · have hj2 : l.length < j := by omega
      rw [List.getElem?_eq_none (by simp; omega), List.getElem?_eq_none (by omega)]

theorem readPrimLoop_spec (p : SerialPrimitive) (buf : List Nat) (base w : Nat) :
    ∀ (k i : Nat) (arrv : List JSVal), i ≤ arrv.length →
      (∀ j, i ≤ j → j < i + k → base + j * w + primSize p ≤ buf.length) →
      ∃ res, readPrimLoop p buf base w k i arrv = .ok res
        ∧ res.length = max arrv.length (i + k)
        ∧ (∀ j, j < i ∨ i + k ≤ j → res[j]? = arrv[j]?)
        ∧ (∀ j, i ≤ j → j < i + k →
            ∃ v, getPrim p buf (base + j * w) = .ok v ∧ res[j]? = some v) := by
  intro k
  induction k with
  | zero =>
      intro i arrv hi _
      exact ⟨arrv, by simp [readPrimLoop], by omega, fun j _ => rfl,
             fun j h1 h2 => by omega⟩
  | succ k ih =>
      intro i arrv hi hbound
      have hread : base + i * w + primSize p ≤ buf.length :=
        hbound i le_rfl (by omega)
      obtain ⟨v, hv⟩ : ∃ v, getPrim p buf (base + i * w) = .ok v := by
        simp only [getPrim]
        rw [if_pos (by omega)]
        exact ⟨_, rfl⟩
      obtain ⟨res, hres, hlen, hother, hread'⟩ := ih (i + 1) (setIdx arrv i v)
        (by rw [setIdx_length _ _ _ hi]; omega)
        (fun j h1 h2 => hbound j (by omega) (by omega))
      refine ⟨res, ?_, ?_, ?_, ?_⟩
      · simp [readPrimLoop, hv, hres]
      · rw [hlen, setIdx_length _ _ _ hi]
        omega
      · intro j hj
        have hji : j ≠ i := by omega
        have : j < i + 1 ∨ i + 1 + k ≤ j := by omega
        rw [hother j this, setIdx_get_other _ _ _ _ hi hji]
      · intro j h1 h2
        by_cases hji : j = i
        · subst hji
          refine ⟨v, hv, ?_⟩
          rw [hother j (Or.inl (by omega)), setIdx_get_self _ _ _ hi]
        · exact hread' j (by omega) (by omega)

/-- C10: when `Deserialize` is given an instance whose repeated numeric
field already holds an array, it reuses that array (`instance[key] ||= []`
keeps a truthy value), overwriting exactly indices `0 … repeat-1` with
the decoded elements and leaving every element at index `≥ repeat`
unchanged; the resulting length is the larger of the old length and
`repeat`. -/
theorem decode_reuses_existing_array (p : SerialPrimitive) (n : Nat)
    (hn : 0 < n) (old : List JSVal) (buf : List Nat)
    (hbuf : n * primSize p ≤ buf.length) :
    ∃ arrv, DeserializeObj [("f", .prim p, some n)] buf [("f", .arr old)]
        = .ok [("f", .arr arrv)]
      ∧ arrv.length = max old.length n
      ∧ (∀ i, n ≤ i → arrv[i]? = old[i]?)
      ∧ (∀ i, i < n →
          ∃ v, getPrim p buf (i * primSize p) = .ok v ∧ arrv[i]? = some v) := by
  have hbound : ∀ j, 0 ≤ j → j < 0 + n → 0 + j * primSize p + primSize p ≤ buf.length := by
    intro j _ hj
    have h1 : (j + 1) * primSize p ≤ n * primSize p :=
      Nat.mul_le_mul_right _ (by omega)
    calc 0 + j * primSize p + primSize p = (j + 1) * primSize p := by ring
      _ ≤ n * primSize p := h1
      _ ≤ buf.length := hbuf
  obtain ⟨res, hres, hlen, hother, hread⟩ :=
    readPrimLoop_spec p buf 0 (primSize p) n 0 old (Nat.zero_le _) hbound
  have hstride : sizeofDef (.prim p) (some n) / n = primSize p := by
    simp only [sizeofDef, sizeofType, Option.getD_some]
    exact Nat.div_eq_of_eq_mul_left hn rfl
  refine ⟨res, ?_, by rw [hlen]; omega,
          fun i h => by rw [hother i (Or.inr (by omega))],
          fun i h => by simpa using hread i (by omega) (by omega)⟩
  have hz : ¬ (some n = some 0) := by simp; omega
  have hn' : ¬ (n = 0) := by omega
  simp only [DeserializeObj, deserializeFields, deserializeField, if_neg hz,
             lenTruthy, ilookup, if_pos rfl, Option.getD_some, truthy, hn']
  rw [hstride]
  simp [hres, iset, hn']

theorem enumFrom_append_singleton (l : List Nat) (c : Nat) :
    ∀ k : Nat, List.enumFrom k (l ++ [c]) = List.enumFrom k l ++ [(k + l.length, c)] := by
  induction l with
  | nil => intro k; simp [List.enumFrom]
  | cons x rest ih =>
      intro k
      simp [List.enumFrom, ih (k + 1)]
      omega

theorem lastCharOf_append (l : List Nat) (c : Nat) :
    lastCharOf (l ++ [c]) = if c = 0 then lastCharOf l else l.length + 1 := by
  unfold lastCharOf
  rw [List.enum, enumFrom_append_singleton l c 0, List.foldl_append]
  by_cases hc : c = 0 <;> simp [hc, List.enum]

theorem lastCharOf_pos (l : List Nat) : 1 ≤ lastCharOf l := by
  simp [lastCharOf]

theorem lastCharOf_le_length (l : List Nat) (h : l ≠ []) :
    lastCharOf l ≤ l.length := by
  induction l using List.reverseRecOn with
  | nil => exact absurd rfl h
  | append_singleton l c ih =>
      rw [lastCharOf_append]
      by_cases hc : c = 0
      · rw [if_pos hc]
        rcases eq_or_ne l [] with hl | hl
        · subst hl
          simp [lastCharOf, List.enum, List.enumFrom]
        · have := ih hl
          simp only [List.length_append, List.length_cons, List.length_nil]
          omega
      · rw [if_neg hc]
        simp

theorem nul_take_props (buf : List Nat) (hne : buf ≠ []) :
    (buf.all (· == 0) → buf.take (lastCharOf buf) = [0])
    ∧ (¬ buf.all (· == 0) →
        (buf.take (lastCharOf buf)).getLast? ≠ some 0
        ∧ ∀ i, lastCharOf buf ≤ i → i < buf.length → buf.getD i 1 = 0) := by
  induction buf using List.reverseRecOn with
  | nil => exact absurd rfl hne
  | append_singleton l c ih =>
      by_cases hc : c = 0
      · subst hc
        rcases eq_or_ne l [] with hl | hl
        · subst hl
          constructor
          · intro _
            decide
          · intro hall
            exact absurd (by decide) hall
        · obtain ⟨ih1, ih2⟩ := ih hl
          rw [lastCharOf_append, if_pos rfl]
          constructor
          · intro hall
            have halll : l.all (· == 0) := by
              simp only [List.all_append] at hall
              exact (Bool.and_eq_true_iff.mp hall).1
            rw [List.take_append_of_le_length (lastCharOf_le_length l hl)]
            exact ih1 halll
          · intro hall
            have halll : ¬ l.all (· == 0) := by
              intro hh
              apply hall
              simp [List.all_append, hh]
            obtain ⟨hlast, hbeyond⟩ := ih2 halll
            constructor
            · rw [List.take_append_of_le_length (lastCharOf_le_length l hl)]
              exact hlast
            · intro i h1 h2
              rcases Nat.lt_or_ge i l.length with hi | hi
              · have hgd : (l ++ [0]).getD i 1 = l.getD i 1 := by
                  simp [List.getD, List.getElem?_append, hi]
                rw [hgd]
                exact hbeyond i h1 hi
              · have hieq : i = l.length := by
                  simp only [List.length_append, List.length_cons, List.length_nil] at h2
                  omega
                subst hieq
                simp [List.getD]
      · rw [lastCharOf_append, if_neg hc]
        constructor
        · intro hall
          exfalso
          simp only [List.all_append, Bool.and_eq_true_iff, List.all_cons,
                     beq_iff_eq] at hall
          exact hc (by simpa using hall.2)
        · intro _
          constructor
          · have hfull : (l ++ [c]).take (l.length + 1) = l ++ [c] := by
              rw [show l.length + 1 = (l ++ [c]).length by simp]
              exact List.take_length _
            rw [hfull]
            simp only [List.getLast?_append, List.getLast?_singleton]
            simp [hc]
          · intro i h1 h2
            simp only [List.length_append, List.length_cons, List.length_nil] at h2
            omega

/-- C5 (amended): decoding a repeated text field of repeat count `n`
from an `n`-byte slot applies the NUL-seeking policy: the result is the
prefix of the slot of length `lastChar` (one past the source's
last-nonzero-byte scan).  If some byte is nonzero, that prefix ends at
the last nonzero byte (trailing zeros dropped, embedded zeros
preserved, last byte nonzero); if every byte of the slot is zero, the
result is the single zero character `"\0"` — not the full
`repeat`-length zero string, and not the empty string. -/
theorem text_decode_nul_seeking (n : Nat) (buf : List Nat)
    (hlen : buf.length = n) (hn : 0 < n) :
    ∃ r, DeserializeObj [("c", SerialType.str, some n)] buf []
        = .ok [("c", JSVal.jstr r)]
      ∧ r = buf.take (lastCharOf buf)
      ∧ 1 ≤ r.length ∧ r.length ≤ buf.length
      ∧ (buf.all (· == 0) → r = [0])
      ∧ (¬ buf.all (· == 0) →
          r.getLast? ≠ some 0
          ∧ ∀ i, r.length ≤ i → i < buf.length → buf.getD i 1 = 0) := by
  have hne : buf ≠ [] := by
    intro hh
    rw [hh] at hlen
    simp at hlen
    omega
  have hz : ¬ (some n = some 0) := by simp; omega
  have hn' : ¬ (n = 0) := by omega
  have hlc : ¬ (lastCharOf buf = 0) := by
    have := lastCharOf_pos buf
    omega
  have hle := lastCharOf_le_length buf hne
  have hbuf : (buf.drop 0).take (sizeofDef SerialType.str (some n)) = buf := by
    simp [sizeofDef, sizeofType, ← hlen]
  refine ⟨buf.take (lastCharOf buf), ?_, rfl, ?_, ?_, ?_, ?_⟩
  · simp only [DeserializeObj, deserializeFields, deserializeField, if_neg hz,
               lenTruthy, hn']
    rw [hbuf]
    simp [if_neg hlc, iset, hn']
  · simp only [List.length_take]
    have := lastCharOf_pos buf
    omega
  · simp only [List.length_take]
    omega
  · exact (nul_take_props buf hne).1
  · intro hall
    obtain ⟨h1, h2⟩ := (nul_take_props buf hne).2 hall
    refine ⟨h1, fun i hi hilen => h2 i ?_ hilen⟩
    simp only [List.length_take] at hi
    omega

/-- C5 witness: the 3-byte slot `[0, 7, 0]` decodes to the 2-byte
string `[0, 7]` — embedded zero preserved, trailing zero dropped. -/
theorem text_decode_nul_seeking_witness :
    ∃ r, DeserializeObj [("c", SerialType.str, some 3)] [0, 7, 0] []
        = .ok [("c", JSVal.jstr r)] :=
  (text_decode_nul_seeking 3 [0, 7, 0] rfl (by decide)).elim
    (fun r h => ⟨r, h.1⟩)

/-- C10 witness: decoding `Uint8[2]` from the buffer `[1, 2]` into an
instance whose field already holds a 3-element array keeps the element
at index 2. -/
theorem decode_reuses_existing_array_witness :
    ∃ arrv, DeserializeObj [("f", .prim .Uint8, some 2)] [1, 2]
        [("f", .arr [.num (.rat 9), .num (.rat 8), .num (.rat 7)])]
      = .ok [("f", .arr arrv)] :=
  (decode_reuses_existing_array .Uint8 2 (by decide)
      [.num (.rat 9), .num (.rat 8), .num (.rat 7)] [1, 2] (by decide)).elim
    (fun a h => ⟨a, h.1⟩)

/-- C4 witness companion showing the amended behavior at a concrete
schema: encode and decode both fail on a schema whose second field has
repeat count 0. -/
theorem zero_repeat_encode_decode_error_witness :
    (∃ e, serializeObj [("b", .prim .Uint8, none), ("a", .prim .Uint8, some 0)]
        [("b", .num (.rat 5))] = .error e)
    ∧ (∃ e, DeserializeObj [("b", .prim .Uint8, none), ("a", .prim .Uint8, some 0)]
        [0] [] = .error e) :=
  zero_repeat_encode_decode_error [("b", .prim .Uint8, none)] [] "a"
    (.prim .Uint8) [("b", .num (.rat 5))] [0]
